import Mathlib

/-!
Verification of the Bollinger-band backtesting engine in `playground.py`.

The development shallowly embeds the core of the program:
* `calculate_bands`  — rolling SMA / standard deviation / Bollinger bands
  (`calculate_bands` in the source, followed by pandas' `dropna`);
* `find_signals`     — the two-state (flat / in-position) signal scanner;
* `sched`            — the greedy single-capital-pool trade scheduler inside
  `backtest_year` (sort by (buy date asc, profit desc), walk once, execute
  iff `buy_date >= next_available_date`);
* `backtest_year`    — the per-year orchestration (year filter, short-series
  skip, empty-candidate-set early return, compounding arithmetic);
* `multiYearGrowth`  — the cross-year multiplicative compounding loop of
  `multi_year_backtest`.

Prices, volumes and band values are modelled as exact rationals (the source
uses IEEE doubles); calendar dates are (year, month, day) triples mapped to a
day count by the standard civil-calendar algorithm, so that pandas'
`(a - b).days` becomes subtraction of the day counts.  The floating-point
square root inside the rolling standard deviation is abstracted as an
arbitrary function `sqrtQ : ℚ → ℚ`; every theorem below holds for every such
function, hence in particular for the source's numeric square root.
-/

namespace Playground

/-- A calendar date, as stored in the pandas `DatetimeIndex`. -/
structure Date where
  y : Int
  m : Int
  d : Int
deriving DecidableEq

/-- Day count of a civil date (Howard Hinnant's `days_from_civil`,
the standard algorithm behind date libraries; all intermediate quantities
are nonnegative for the Common-Era dates the program handles, so the
division convention does not matter). `(a - b).days` on pandas timestamps
is `toDay a - toDay b`. -/
def Date.toDay (t : Date) : Int :=
  let y := if t.m ≤ 2 then t.y - 1 else t.y
  let era := (if 0 ≤ y then y else y - 399) / 400
  let yoe := y - era * 400
  let doy := (153 * (if 2 < t.m then t.m - 3 else t.m + 9) + 2) / 5 + t.d - 1
  let doe := yoe * 365 + yoe / 4 - yoe / 100 + doy
  era * 146097 + doe - 719468

-- Strategy parameters (module-level constants in the source).
def period : Nat := 20
def std_factor : ℚ := 2
def max_hold_days : Int := 30
def min_volume : ℚ := 100000
def deviation_threshold : ℚ := 2 / 100
def initial_capital : ℚ := 10000
def years_to_test : List Int := (List.range 12).map (fun i => 2014 + (i : Int))

/-- One row of a raw price series (`Date` index plus the columns the core
reads: `Close` and `Volume`). -/
structure PricePoint where
  date : Date
  close : ℚ
  volume : ℚ
deriving DecidableEq

/-- Arithmetic mean of a list of rationals (`rolling(period).mean()` on one
window). -/
def meanQ (l : List ℚ) : ℚ := l.sum / l.length

/-- Sample variance with `ddof = 1` (the pandas `rolling(period).std()`
default squares to this). -/
def sampleVar (l : List ℚ) : ℚ :=
  ((l.map (fun x => (x - meanQ l) ^ 2)).sum) / ((l.length : ℚ) - 1)

/-- A row after `calculate_bands`: the indicator columns are `Option`-valued,
`none` standing for the `NaN` that pandas' rolling functions produce while
the trailing window is incomplete. -/
structure BandRow where
  date : Date
  close : ℚ
  volume : ℚ
  sma : Option ℚ
  std : Option ℚ
  upper : Option ℚ
  lower : Option ℚ
  below : Option ℚ
deriving DecidableEq

/-- The window of closes ending at row `i` (rows `i-period+1 .. i`), as used
by `rolling(period)` once `period - 1 ≤ i`. -/
def windowCloses (df : List PricePoint) (i : Nat) : List ℚ :=
  ((df.take (i + 1)).drop (i + 1 - period)).map (fun p => p.close)

/-- Row `i` of the band-annotated dataframe: the indicator columns are
defined once the trailing window is complete (`period - 1 ≤ i`), `NaN`
(`none`) before that. -/
def bandRowOf (sqrtQ : ℚ → ℚ) (df : List PricePoint) (i : ℕ) : BandRow :=
  let p := df.getD i ⟨⟨0, 1, 1⟩, 0, 0⟩
  if period - 1 ≤ i then
    let m := meanQ (windowCloses df i)
    let s := sqrtQ (sampleVar (windowCloses df i))
    let lo := m - std_factor * s
    { date := p.date, close := p.close, volume := p.volume,
      sma := some m, std := some s, upper := some (m + std_factor * s),
      lower := some lo, below := some ((lo - p.close) / p.close) }
  else
    { date := p.date, close := p.close, volume := p.volume,
      sma := none, std := none, upper := none, lower := none, below := none }

/-- Function `calculate_bands` from the source: adds `SMA`, `STD`, `Upper`, `Lower`
and `%Below_Lower` columns, `NaN` (here `none`) for the first `period - 1`
rows.  `sqrtQ` stands in for the numeric square root used by `std()`. -/
def calculate_bands (sqrtQ : ℚ → ℚ) (df : List PricePoint) : List BandRow :=
  (List.range df.length).map (bandRowOf sqrtQ df)

/-- A fully-annotated row of the working dataframe, after
`calculate_bands(df).dropna()`: exactly the columns `find_signals` reads. -/
structure Row where
  date : Date
  close : ℚ
  volume : ℚ
  sma : ℚ
  lower : ℚ
  below : ℚ
deriving DecidableEq

/-- Keeping a band row only when all its indicator columns are defined. -/
def dropnaRow (b : BandRow) : Option Row :=
  match b.sma, b.std, b.upper, b.lower, b.below with
  | some m, some _, some _, some lo, some be =>
      some { date := b.date, close := b.close, volume := b.volume,
             sma := m, lower := lo, below := be }
  | _, _, _, _, _ => none

/-- pandas `dropna()` on the band columns: rows with any `NaN` indicator are
removed, the rest keep their values. -/
def dropnaBands (l : List BandRow) : List Row :=
  l.filterMap dropnaRow

/-- One element of the `trades` list built by `find_signals`:
`(entry_date, entry_price, today, price, below, days_held)`. -/
structure Trade where
  buy_date : Date
  buy_price : ℚ
  sell_date : Date
  sell_price : ℚ
  below : ℚ
  days_held : Int
deriving DecidableEq

/-- The loop state of `find_signals`: the accumulated `trades` list, the
`in_position` flag and the entry bookkeeping (`entry_date`, `entry_price`
are only meaningful while `in_position`; the source initialises them to
`None`, here to a dummy value that is never read while flat). -/
structure ScanState where
  trades : List Trade
  in_position : Bool
  entry_date : Date
  entry_price : ℚ

/-- One iteration of the `find_signals` loop body on row `r`. -/
def scanStep (st : ScanState) (r : Row) : ScanState :=
  if st.in_position = false then
    if r.close < r.lower ∧ deviation_threshold < r.below ∧ min_volume < r.volume then
      { st with in_position := true, entry_date := r.date, entry_price := r.close }
    else st
  else
    let days_held := r.date.toDay - st.entry_date.toDay
    if r.sma < r.close ∨ max_hold_days ≤ days_held then
      { st with
          trades := st.trades ++
            [⟨st.entry_date, st.entry_price, r.date, r.close, r.below, days_held⟩],
          in_position := false }
    else st

/-- Function `find_signals` from the source: a single forward pass over the working
dataframe, returning the list of closed trades (an open position at the end
of the data is simply dropped with the final state). -/
def find_signals (df : List Row) : List Trade :=
  (df.foldl scanStep ⟨[], false, ⟨0, 1, 1⟩, 0⟩).trades

/-- One entry of the `all_signals` list built in `backtest_year`:
`[ticker, buy_date, buy_price, sell_date, sell_price, profit_pct,
%Below_Lower, days_held]`. -/
structure Sig where
  ticker : String
  buy_date : Date
  buy_price : ℚ
  sell_date : Date
  sell_price : ℚ
  pct : ℚ
  below : ℚ
  days_held : Int
deriving DecidableEq

/-- The sort key comparison of `all_signals.sort(key=lambda x: (x[1], -x[5]))`:
lexicographic on (buy date ascending, profit percentage descending). -/
def sigLE (a b : Sig) : Bool :=
  a.buy_date.toDay < b.buy_date.toDay ∨
    (a.buy_date.toDay = b.buy_date.toDay ∧ b.pct ≤ a.pct)

/-- The sorting step of `backtest_year` (Python's stable sort, here a stable
merge sort with the same key order). -/
def sortSignals (l : List Sig) : List Sig := l.mergeSort sigLE

/-- The greedy execution loop of `backtest_year`: walk the sorted signals
once, keeping `(executed so far, next_available_date, capital)`.  A signal
is executed iff its buy date is on/after `next_available_date`; execution
reinvests the whole pool (`shares = capital / buy_price;
capital = shares * sell_price`) and moves `next_available_date` to the sell
date. -/
def sched : List Sig → Date → ℚ → List Sig × Date × ℚ
  | [], next, capital => ([], next, capital)
  | s :: rest, next, capital =>
    if next.toDay ≤ s.buy_date.toDay then
      let r := sched rest s.sell_date (capital / s.buy_price * s.sell_price)
      (s :: r.1, r.2)
    else
      sched rest next capital

/-- The per-instrument part of `backtest_year` STEP 1: filter the series to
the target year, skip it when fewer than `period` rows remain, otherwise run
`calculate_bands(...).dropna()` and `find_signals`, and convert each trade
to a `Sig` with `profit_pct = (sell - buy) / buy * 100`. -/
def candidatesFor (sqrtQ : ℚ → ℚ) (year : Int) (ticker : String)
    (series : List PricePoint) : List Sig :=
  let df := series.filter (fun p => p.date.y = year)
  if df.length < period then []
  else
    (find_signals (dropnaBands (calculate_bands sqrtQ df))).map fun t =>
      { ticker := ticker, buy_date := t.buy_date, buy_price := t.buy_price,
        sell_date := t.sell_date, sell_price := t.sell_price,
        pct := (t.sell_price - t.buy_price) / t.buy_price * 100,
        below := t.below, days_held := t.days_held }

/-- List `all_signals` of `backtest_year`: the concatenation of every
instrument's candidates for the year. -/
def allSignalsFor (sqrtQ : ℚ → ℚ) (year : Int)
    (data : List (String × List PricePoint)) : List Sig :=
  (data.map (fun e => candidatesFor sqrtQ year e.1 e.2)).flatten

/-- The result of one year's backtest: the executed sequence, the final
capital pool and the reported compound return percentage. -/
structure YearResult where
  executed : List Sig
  finalCapital : ℚ
  compoundReturn : ℚ
deriving DecidableEq

/-- Function `backtest_year` from the source: gather candidates, return 0 when there
are none, otherwise sort, run the greedy scheduler from January 1 of the
year with the fixed initial capital, and report
`(capital - initial_capital) / initial_capital * 100`. -/
def backtest_year (sqrtQ : ℚ → ℚ) (year : Int)
    (data : List (String × List PricePoint)) : YearResult :=
  let all := allSignalsFor sqrtQ year data
  if all.isEmpty then
    { executed := [], finalCapital := initial_capital, compoundReturn := 0 }
  else
    let r := sched (sortSignals all) ⟨year, 1, 1⟩ initial_capital
    { executed := r.1, finalCapital := r.2.2,
      compoundReturn := (r.2.2 - initial_capital) / initial_capital * 100 }

/-- The cross-year compounding loop of `multi_year_backtest`:
`comp_factor = 1`, then `comp_factor *= (1 + gain / 100)` per year. -/
def compoundFactor (gains : List ℚ) : ℚ :=
  gains.foldl (fun acc g => acc * (1 + g / 100)) 1

/-- The overall growth factor of `multi_year_backtest`: the years are iterated in
reverse (2025 down to 2014) and each year's compound return is folded into
the factor. -/
def multiYearGrowth (sqrtQ : ℚ → ℚ)
    (data : List (String × List PricePoint)) : ℚ :=
  compoundFactor
    ((years_to_test.reverse).map fun y => (backtest_year sqrtQ y data).compoundReturn)

/-! ### Scheduler lemmas -/

/-- Unfolding `sigLE` into its defining proposition. -/
lemma sigLE_iff (a b : Sig) :
    sigLE a b = true ↔
      (a.buy_date.toDay < b.buy_date.toDay ∨
        (a.buy_date.toDay = b.buy_date.toDay ∧ b.pct ≤ a.pct)) := by
  simp [sigLE]

/-- The sort key comparison is transitive. -/
lemma sigLE_trans (a b c : Sig) (hab : sigLE a b) (hbc : sigLE b c) : sigLE a c := by
  rw [sigLE_iff] at *
  rcases hab with h1 | ⟨h1, h1'⟩ <;> rcases hbc with h2 | ⟨h2, h2'⟩
  · exact Or.inl (h1.trans h2)
  · exact Or.inl (h2 ▸ h1)
  · exact Or.inl (h1 ▸ h2)
  · exact Or.inr ⟨h1.trans h2, h2'.trans h1'⟩

/-- The sort key comparison is total. -/
lemma sigLE_total (a b : Sig) : sigLE a b || sigLE b a := by
  rcases lt_trichotomy a.buy_date.toDay b.buy_date.toDay with h | h | h
  · simp [sigLE_iff, h]
  · rcases le_total b.pct a.pct with hp | hp <;> simp [sigLE_iff, h, hp]
  · simp [sigLE_iff, h]

/-- The first executed trade of a scheduler run buys on or after the initial
`next_available_date`. -/
lemma sched_head_ge (l : List Sig) : ∀ (n : Date) (c : ℚ) (t : Sig),
    (sched l n c).1.head? = some t → n.toDay ≤ t.buy_date.toDay := by
  induction l with
  | nil => intro n c t h; simp [sched] at h
  | cons s rest ih =>
    intro n c t h
    by_cases hb : n.toDay ≤ s.buy_date.toDay
    · rw [sched, if_pos hb] at h
      simp only [List.head?_cons, Option.some.injEq] at h
      exact h ▸ hb
    · rw [sched, if_neg hb] at h
      exact ih n c t h

/-- Consecutive executed trades do not overlap: each sells no later than the
next one buys. -/
lemma sched_chain (l : List Sig) : ∀ (n : Date) (c : ℚ),
    List.Chain' (fun a b => a.sell_date.toDay ≤ b.buy_date.toDay) (sched l n c).1 := by
  induction l with
  | nil => intro n c; simp [sched]
  | cons s rest ih =>
    intro n c
    by_cases hb : n.toDay ≤ s.buy_date.toDay
    · rw [sched, if_pos hb]
      refine List.chain'_cons'.mpr ⟨?_, ih _ _⟩
      intro y hy
      exact sched_head_ge rest s.sell_date _ y hy
    · rw [sched, if_neg hb]
      exact ih n c

/-- The executed sequence is a subsequence of the walked candidate list. -/
lemma sched_sublist (l : List Sig) : ∀ (n : Date) (c : ℚ),
    (sched l n c).1.Sublist l := by
  induction l with
  | nil => intro n c; simp [sched]
  | cons s rest ih =>
    intro n c
    by_cases hb : n.toDay ≤ s.buy_date.toDay
    · rw [sched, if_pos hb]
      exact (ih _ _).cons₂ s
    · rw [sched, if_neg hb]
      exact (ih n c).cons s

/-- In a list whose consecutive elements satisfy sell ≤ next buy and which is
sorted by buy date, every earlier trade sells no later than every later trade
buys. -/
lemma chain_sorted_pairwise (l : List Sig)
    (hc : List.Chain' (fun a b => a.sell_date.toDay ≤ b.buy_date.toDay) l)
    (hp : List.Pairwise (fun a b => a.buy_date.toDay ≤ b.buy_date.toDay) l) :
    List.Pairwise (fun a b => a.sell_date.toDay ≤ b.buy_date.toDay) l := by
  induction l with
  | nil => simp
  | cons a t ih =>
    rcases List.pairwise_cons.mp hp with ⟨hpa, hpt⟩
    rcases List.chain'_cons'.mp hc with ⟨hhead, hct⟩
    refine List.pairwise_cons.mpr ⟨?_, ih hct hpt⟩
    intro b hb
    cases t with
    | nil => simp at hb
    | cons u t' =>
      have hau : a.sell_date.toDay ≤ u.buy_date.toDay := hhead u rfl
      rcases List.mem_cons.mp hb with rfl | hb'
      · exact hau
      · have hub : u.buy_date.toDay ≤ b.buy_date.toDay :=
          (List.pairwise_cons.mp hpt).1 b hb'
        omega

/-- C1.  For every candidate set given to the scheduler, the executed
sequence has no two trades with overlapping `[buyDate, sellDate)` intervals
(in particular a new trade may begin on the exact day the prior one closes),
and it is sorted ascending by buy date. -/
theorem C1_scheduler_nonoverlap_and_sorted (cs : List Sig) (start : Date) (cap : ℚ) :
    List.Pairwise
      (fun a b => ∀ x : Int,
        ¬(a.buy_date.toDay ≤ x ∧ x < a.sell_date.toDay ∧
          b.buy_date.toDay ≤ x ∧ x < b.sell_date.toDay))
      (sched (sortSignals cs) start cap).1 ∧
    List.Pairwise (fun a b => a.buy_date.toDay ≤ b.buy_date.toDay)
      (sched (sortSignals cs) start cap).1 := by
  have hsorted : List.Pairwise (fun a b => sigLE a b = true) (sortSignals cs) :=
    List.sorted_mergeSort sigLE_trans sigLE_total cs
  have hbuy : List.Pairwise (fun a b => a.buy_date.toDay ≤ b.buy_date.toDay)
      (sortSignals cs) := by
    refine hsorted.imp ?_
    intro a b hab
    rcases (sigLE_iff a b).mp hab with h | ⟨h, _⟩
    · exact le_of_lt h
    · exact le_of_eq h
  have hexbuy : List.Pairwise (fun a b => a.buy_date.toDay ≤ b.buy_date.toDay)
      (sched (sortSignals cs) start cap).1 :=
    List.Pairwise.sublist (sched_sublist _ _ _) hbuy
  have hsell : List.Pairwise (fun a b => a.sell_date.toDay ≤ b.buy_date.toDay)
      (sched (sortSignals cs) start cap).1 :=
    chain_sorted_pairwise _ (sched_chain _ _ _) hexbuy
  refine ⟨hsell.imp ?_, hexbuy⟩
  intro a b hab x
  omega

/-- Splitting a scheduler walk at any point: the trades executed over a
concatenation are those of the first part followed by those of the second
part started from the first part's final `next_available_date` and capital.
Together with the singleton law this says a candidate is executed iff its
buy date is on/after the `next_available_date` current when it is visited,
and that skipped candidates leave the state untouched. -/
lemma sched_append (l1 l2 : List Sig) : ∀ (n : Date) (c : ℚ),
    sched (l1 ++ l2) n c =
      ((sched l1 n c).1 ++ (sched l2 (sched l1 n c).2.1 (sched l1 n c).2.2).1,
        (sched l2 (sched l1 n c).2.1 (sched l1 n c).2.2).2) := by
  induction l1 with
  | nil => intro n c; simp [sched]
  | cons s rest ih =>
    intro n c
    by_cases hb : n.toDay ≤ s.buy_date.toDay
    · simp only [List.cons_append, sched, if_pos hb, List.append_eq, ih]
    · simp only [List.cons_append, sched, if_neg hb, List.append_eq, ih]

/-- C2.  The scheduler of `backtest_year` sorts the candidates by
(buy date ascending, profit descending), initialises `next_available_date`
to January 1 of the year, and walks the sorted list once; a candidate is
executed iff its buy date is ≥ the current `next_available_date`, in which
case the capital pool becomes `capital / buyPrice * sellPrice` and
`next_available_date` becomes its sell date, and otherwise it is skipped
with the state unchanged (hence permanently, since the walk never
revisits). -/
theorem C2_scheduler_characterisation :
    (∀ cs : List Sig,
      (sortSignals cs).Perm cs ∧
        List.Pairwise (fun a b => sigLE a b = true) (sortSignals cs)) ∧
    (∀ (l1 l2 : List Sig) (n : Date) (c : ℚ),
      sched (l1 ++ l2) n c =
        ((sched l1 n c).1 ++ (sched l2 (sched l1 n c).2.1 (sched l1 n c).2.2).1,
          (sched l2 (sched l1 n c).2.1 (sched l1 n c).2.2).2)) ∧
    (∀ (s : Sig) (n : Date) (c : ℚ),
      sched [s] n c =
        if n.toDay ≤ s.buy_date.toDay then
          ([s], s.sell_date, c / s.buy_price * s.sell_price)
        else ([], n, c)) ∧
    (∀ (sqrtQ : ℚ → ℚ) (year : Int) (data : List (String × List PricePoint)),
      backtest_year sqrtQ year data =
        if (allSignalsFor sqrtQ year data).isEmpty then
          { executed := [], finalCapital := initial_capital, compoundReturn := 0 }
        else
          { executed :=
              (sched (sortSignals (allSignalsFor sqrtQ year data))
                ⟨year, 1, 1⟩ initial_capital).1,
            finalCapital :=
              (sched (sortSignals (allSignalsFor sqrtQ year data))
                ⟨year, 1, 1⟩ initial_capital).2.2,
            compoundReturn :=
              ((sched (sortSignals (allSignalsFor sqrtQ year data))
                  ⟨year, 1, 1⟩ initial_capital).2.2 - initial_capital) /
                initial_capital * 100 }) := by
  refine ⟨?_, sched_append, ?_, ?_⟩
  · intro cs
    exact ⟨List.mergeSort_perm cs sigLE,
      List.sorted_mergeSort sigLE_trans sigLE_total cs⟩
  · intro s n c
    by_cases hb : n.toDay ≤ s.buy_date.toDay
    · simp [sched, if_pos hb]
    · simp [sched, if_neg hb]
  · intro sqrtQ year data
    by_cases he : (allSignalsFor sqrtQ year data).isEmpty
    · simp [backtest_year, he]
    · simp [backtest_year, he]

/-- C5.  A period whose candidate set is a single trade with buy price 100
and sell price 110, with the configured initial capital of 10000, executes
that trade, ends with capital 11000, and reports a compound return of
exactly 10 percent. -/
theorem C5_single_trade_compounding (s : Sig) (start : Date)
    (h1 : start.toDay ≤ s.buy_date.toDay)
    (h2 : s.buy_price = 100) (h3 : s.sell_price = 110) :
    (sched (sortSignals [s]) start initial_capital).1 = [s] ∧
    (sched (sortSignals [s]) start initial_capital).2.2 = 11000 ∧
    ((sched (sortSignals [s]) start initial_capital).2.2 - initial_capital) /
        initial_capital * 100 = 10 := by
  have hs : sortSignals [s] = [s] := by simp [sortSignals]
  rw [hs]
  rw [sched, if_pos h1]
  simp only [sched, h2, h3, initial_capital]
  norm_num

/-- Witness for C5 at a concrete candidate and period start. -/
theorem C5_witness :
    (sched (sortSignals [⟨"A", ⟨2020, 3, 2⟩, 100, ⟨2020, 3, 9⟩, 110, 10, 1/9, 7⟩])
        ⟨2020, 1, 1⟩ initial_capital).2.2 = 11000 :=
  (C5_single_trade_compounding
    ⟨"A", ⟨2020, 3, 2⟩, 100, ⟨2020, 3, 9⟩, 110, 10, 1/9, 7⟩
    ⟨2020, 1, 1⟩ (by decide) rfl rfl).2.1

/-! ### Scanner lemmas -/

/-- Every trade appended during a scan pairs the current entry with a later
row, provided the remaining rows are strictly later than any open entry and
strictly date-sorted; `P` abstracts the property this gives each new trade. -/
lemma scan_trades_sound (P : Trade → Prop)
    (hP : ∀ (d : Date) (p : ℚ) (r : Row), d.toDay < r.date.toDay →
      P ⟨d, p, r.date, r.close, r.below, r.date.toDay - d.toDay⟩) :
    ∀ (df : List Row) (st : ScanState),
      df.Pairwise (fun a b => a.date.toDay < b.date.toDay) →
      (∀ t ∈ st.trades, P t) →
      (st.in_position = true → ∀ r ∈ df, st.entry_date.toDay < r.date.toDay) →
      ∀ t ∈ (df.foldl scanStep st).trades, P t := by
  intro df
  induction df with
  | nil => intro st _ hacc _ t ht; exact hacc t ht
  | cons r rest ih =>
    intro st hsort hacc hentry
    rcases List.pairwise_cons.mp hsort with ⟨hr, hrest⟩
    rw [List.foldl_cons]
    cases hbool : st.in_position with
    | false =>
      by_cases htrig :
          r.close < r.lower ∧ deviation_threshold < r.below ∧ min_volume < r.volume
      · have hstep : scanStep st r =
            { st with in_position := true, entry_date := r.date, entry_price := r.close } := by
          simp [scanStep, hbool, htrig]
        rw [hstep]
        refine ih _ hrest hacc ?_
        intro _ r' hr'
        exact hr r' hr'
      · have hstep : scanStep st r = st := by simp [scanStep, hbool, htrig]
        rw [hstep]
        refine ih st hrest hacc ?_
        intro hpos
        rw [hbool] at hpos
        cases hpos
    | true =>
      by_cases hexit : r.sma < r.close ∨ max_hold_days ≤ r.date.toDay - st.entry_date.toDay
      · have hstep : scanStep st r =
            { st with
                trades := st.trades ++
                  [⟨st.entry_date, st.entry_price, r.date, r.close, r.below,
                    r.date.toDay - st.entry_date.toDay⟩],
                in_position := false } := by
          simp [scanStep, hbool, hexit]
        rw [hstep]
        refine ih _ hrest ?_ ?_
        · intro t ht
          rcases List.mem_append.mp ht with h | h
          · exact hacc t h
          · rw [List.mem_singleton.mp h]
            exact hP st.entry_date st.entry_price r
              (hentry hbool r (List.mem_cons_self r rest))
        · intro hpos
          cases hpos
      · have hstep : scanStep st r = st := by simp [scanStep, hbool, hexit]
        rw [hstep]
        refine ih st hrest hacc ?_
        intro hpos r' hr'
        exact hentry hpos r' (List.mem_cons_of_mem r hr')

/-- C6.  On a strictly date-sorted band-annotated series every emitted trade
buys strictly before it sells: the exit branch is only ever evaluated on a
bar after the entry bar. -/
theorem C6_buy_strictly_before_sell (df : List Row)
    (hsort : df.Pairwise (fun a b => a.date.toDay < b.date.toDay)) :
    ∀ t ∈ find_signals df, t.buy_date.toDay < t.sell_date.toDay := by
  refine scan_trades_sound (fun t => t.buy_date.toDay < t.sell_date.toDay)
    ?_ df ⟨[], false, ⟨0, 1, 1⟩, 0⟩ hsort (by simp) (by simp)
  intro d p r h
  simpa using h

/-- A small concrete band-annotated series: an entry bar, an SMA-cross exit
bar, a second entry bar, a second exit bar, and a final entry bar whose
position never closes. -/
def dfScanEx : List Row :=
  [⟨⟨2020, 1, 2⟩, 90, 200000, 95, 100, 1/9⟩,
   ⟨⟨2020, 1, 3⟩, 99, 0, 95, 100, 0⟩,
   ⟨⟨2020, 1, 6⟩, 80, 200000, 95, 90, 1/8⟩,
   ⟨⟨2020, 1, 7⟩, 99, 0, 95, 100, 0⟩,
   ⟨⟨2020, 1, 8⟩, 80, 200000, 95, 90, 1/8⟩]

/-- Evaluating the scan of `dfScanEx`: two closed trades and an open
position entered on the final bar. -/
lemma scanEx_eval :
    dfScanEx.foldl scanStep ⟨[], false, ⟨0, 1, 1⟩, 0⟩ =
      ⟨[⟨⟨2020, 1, 2⟩, 90, ⟨2020, 1, 3⟩, 99, 0, 1⟩,
        ⟨⟨2020, 1, 6⟩, 80, ⟨2020, 1, 7⟩, 99, 0, 1⟩],
       true, ⟨2020, 1, 8⟩, 80⟩ := by
  norm_num [dfScanEx, scanStep, Date.toDay, deviation_threshold, min_volume,
    max_hold_days]

/-- The dates of `dfScanEx` are strictly increasing. -/
lemma scanEx_sorted :
    dfScanEx.Pairwise (fun a b => a.date.toDay < b.date.toDay) := by
  norm_num [dfScanEx, List.pairwise_cons, Date.toDay]

/-- Evaluating `find_signals` on the concrete series. -/
lemma find_signals_scanEx :
    find_signals dfScanEx =
      [⟨⟨2020, 1, 2⟩, 90, ⟨2020, 1, 3⟩, 99, 0, 1⟩,
       ⟨⟨2020, 1, 6⟩, 80, ⟨2020, 1, 7⟩, 99, 0, 1⟩] := by
  rw [find_signals, scanEx_eval]

/-- Witness for C6: the first trade of the concrete series is in the scan
output and buys strictly before it sells. -/
theorem C6_witness :
    (⟨⟨2020, 1, 2⟩, 90, ⟨2020, 1, 3⟩, 99, 0, 1⟩ : Trade) ∈ find_signals dfScanEx ∧
    (⟨2020, 1, 2⟩ : Date).toDay < (⟨2020, 1, 3⟩ : Date).toDay := by
  have hmem : (⟨⟨2020, 1, 2⟩, 90, ⟨2020, 1, 3⟩, 99, 0, 1⟩ : Trade) ∈ find_signals dfScanEx := by
    rw [find_signals_scanEx]
    exact List.mem_cons_self _ _
  exact ⟨hmem, C6_buy_strictly_before_sell dfScanEx scanEx_sorted
    ⟨⟨2020, 1, 2⟩, 90, ⟨2020, 1, 3⟩, 99, 0, 1⟩ hmem⟩

/-- Master invariant of the scan on a strictly date-sorted series: all
closed trades sold strictly before any currently open entry, and
consecutive closed trades are separated (each sells strictly before the
next buys). -/
lemma scan_closed_master :
    ∀ (df : List Row) (st : ScanState),
      df.Pairwise (fun a b => a.date.toDay < b.date.toDay) →
      (st.in_position = true → ∀ r ∈ df, st.entry_date.toDay < r.date.toDay) →
      (st.in_position = true → ∀ t ∈ st.trades, t.sell_date.toDay < st.entry_date.toDay) →
      (st.in_position = false → ∀ t ∈ st.trades, ∀ r ∈ df, t.sell_date.toDay < r.date.toDay) →
      List.Chain' (fun t u => t.sell_date.toDay < u.buy_date.toDay) st.trades →
      (((df.foldl scanStep st).in_position = true →
          ∀ t ∈ (df.foldl scanStep st).trades,
            t.sell_date.toDay < (df.foldl scanStep st).entry_date.toDay) ∧
        List.Chain' (fun t u => t.sell_date.toDay < u.buy_date.toDay)
          (df.foldl scanStep st).trades) := by
  intro df
  induction df with
  | nil => intro st _ _ h3 _ h5; exact ⟨h3, h5⟩
  | cons r rest ih =>
    intro st hsort h2 h3 h4 h5
    rcases List.pairwise_cons.mp hsort with ⟨hr, hrest⟩
    rw [List.foldl_cons]
    cases hbool : st.in_position with
    | false =>
      by_cases htrig :
          r.close < r.lower ∧ deviation_threshold < r.below ∧ min_volume < r.volume
      · have hstep : scanStep st r =
            { st with in_position := true, entry_date := r.date, entry_price := r.close } := by
          simp [scanStep, hbool, htrig]
        rw [hstep]
        refine ih _ hrest ?_ ?_ ?_ h5
        · intro _ r' hr'
          exact hr r' hr'
        · intro _ t ht
          exact h4 hbool t ht r (List.mem_cons_self r rest)
        · intro habs
          cases habs
      · have hstep : scanStep st r = st := by simp [scanStep, hbool, htrig]
        rw [hstep]
        refine ih st hrest ?_ h3 ?_ h5
        · intro hpos
          rw [hbool] at hpos
          cases hpos
        · intro _ t ht r' hr'
          exact h4 hbool t ht r' (List.mem_cons_of_mem r hr')
    | true =>
      by_cases hexit : r.sma < r.close ∨ max_hold_days ≤ r.date.toDay - st.entry_date.toDay
      · have hstep : scanStep st r =
            { st with
                trades := st.trades ++
                  [⟨st.entry_date, st.entry_price, r.date, r.close, r.below,
                    r.date.toDay - st.entry_date.toDay⟩],
                in_position := false } := by
          simp [scanStep, hbool, hexit]
        rw [hstep]
        refine ih _ hrest ?_ ?_ ?_ ?_
        · intro habs
          cases habs
        · intro habs
          cases habs
        · intro _ t ht r' hr'
          rcases List.mem_append.mp ht with h | h
          · have ha := h3 hbool t h
            have hb := h2 hbool r (List.mem_cons_self r rest)
            have hcd := hr r' hr'
            omega
          · rw [List.mem_singleton.mp h]
            simpa using hr r' hr'
        · refine List.chain'_append.mpr ⟨h5, List.chain'_singleton _, ?_⟩
          intro x hx y hy
          have hxmem : x ∈ st.trades := List.mem_of_mem_getLast? hx
          have hxs := h3 hbool x hxmem
          simp only [List.head?_cons, Option.mem_def, Option.some.injEq] at hy
          rw [← hy]
          exact hxs
      · have hstep : scanStep st r = st := by simp [scanStep, hbool, hexit]
        rw [hstep]
        refine ih st hrest ?_ h3 ?_ h5
        · intro hpos r' hr'
          exact h2 hpos r' (List.mem_cons_of_mem r hr')
        · intro habs
          rw [hbool] at habs
          cases habs

/-- Every trade emitted by a scan pairs an actual entry row with an actual
exit row of the series: `Q` abstracts membership of the rows. -/
lemma scan_roundtrip (Q : Row → Prop) :
    ∀ (df : List Row) (st : ScanState),
      (∀ r ∈ df, Q r) →
      (∀ t ∈ st.trades,
        (∃ r, Q r ∧ t.buy_date = r.date ∧ t.buy_price = r.close) ∧
        (∃ r, Q r ∧ t.sell_date = r.date ∧ t.sell_price = r.close)) →
      (st.in_position = true →
        ∃ r, Q r ∧ st.entry_date = r.date ∧ st.entry_price = r.close) →
      ∀ t ∈ (df.foldl scanStep st).trades,
        (∃ r, Q r ∧ t.buy_date = r.date ∧ t.buy_price = r.close) ∧
        (∃ r, Q r ∧ t.sell_date = r.date ∧ t.sell_price = r.close) := by
  intro df
  induction df with
  | nil => intro st _ hacc _ t ht; exact hacc t ht
  | cons r rest ih =>
    intro st hQ hacc hentry
    have hQr : Q r := hQ r (List.mem_cons_self r rest)
    have hQrest : ∀ r' ∈ rest, Q r' := fun r' hr' => hQ r' (List.mem_cons_of_mem r hr')
    rw [List.foldl_cons]
    cases hbool : st.in_position with
    | false =>
      by_cases htrig :
          r.close < r.lower ∧ deviation_threshold < r.below ∧ min_volume < r.volume
      · have hstep : scanStep st r =
            { st with in_position := true, entry_date := r.date, entry_price := r.close } := by
          simp [scanStep, hbool, htrig]
        rw [hstep]
        refine ih _ hQrest hacc ?_
        intro _
        exact ⟨r, hQr, rfl, rfl⟩
      · have hstep : scanStep st r = st := by simp [scanStep, hbool, htrig]
        rw [hstep]
        refine ih st hQrest hacc ?_
        intro hpos
        rw [hbool] at hpos
        cases hpos
    | true =>
      by_cases hexit : r.sma < r.close ∨ max_hold_days ≤ r.date.toDay - st.entry_date.toDay
      · have hstep : scanStep st r =
            { st with
                trades := st.trades ++
                  [⟨st.entry_date, st.entry_price, r.date, r.close, r.below,
                    r.date.toDay - st.entry_date.toDay⟩],
                in_position := false } := by
          simp [scanStep, hbool, hexit]
        rw [hstep]
        refine ih _ hQrest ?_ ?_
        · intro t ht
          rcases List.mem_append.mp ht with h | h
          · exact hacc t h
          · rw [List.mem_singleton.mp h]
            exact ⟨hentry hbool, ⟨r, hQr, rfl, rfl⟩⟩
        · intro habs
          cases habs
      · have hstep : scanStep st r = st := by simp [scanStep, hbool, hexit]
        rw [hstep]
        exact ih st hQrest hacc hentry

/-- C7.  If the scan of a strictly date-sorted series ends while still in a
position, that open position contributes no trade: every emitted trade
closed strictly before the open entry date, and every emitted trade is a
fully closed round trip whose buy and sell both come from actual rows of
the series. -/
theorem C7_open_position_discarded (df : List Row)
    (hsort : df.Pairwise (fun a b => a.date.toDay < b.date.toDay))
    (hopen : (df.foldl scanStep ⟨[], false, ⟨0, 1, 1⟩, 0⟩).in_position = true) :
    (∀ t ∈ find_signals df,
      t.sell_date.toDay <
        (df.foldl scanStep ⟨[], false, ⟨0, 1, 1⟩, 0⟩).entry_date.toDay) ∧
    (∀ t ∈ find_signals df,
      (∃ r, r ∈ df ∧ t.buy_date = r.date ∧ t.buy_price = r.close) ∧
      (∃ r, r ∈ df ∧ t.sell_date = r.date ∧ t.sell_price = r.close)) := by
  constructor
  · exact (scan_closed_master df ⟨[], false, ⟨0, 1, 1⟩, 0⟩ hsort
      (by simp) (by simp) (by simp) (by simp)).1 hopen
  · exact scan_roundtrip (fun r => r ∈ df) df ⟨[], false, ⟨0, 1, 1⟩, 0⟩
      (fun r hr => hr) (by simp) (by simp)

/-- Witness for C7: the concrete series ends in an open position entered on
2020-01-08, and the first emitted trade sold strictly before that entry. -/
theorem C7_witness :
    (⟨⟨2020, 1, 2⟩, 90, ⟨2020, 1, 3⟩, 99, 0, 1⟩ : Trade) ∈ find_signals dfScanEx ∧
    (⟨2020, 1, 3⟩ : Date).toDay <
      (dfScanEx.foldl scanStep ⟨[], false, ⟨0, 1, 1⟩, 0⟩).entry_date.toDay := by
  have hmem : (⟨⟨2020, 1, 2⟩, 90, ⟨2020, 1, 3⟩, 99, 0, 1⟩ : Trade) ∈ find_signals dfScanEx := by
    rw [find_signals_scanEx]
    exact List.mem_cons_self _ _
  have hopen : (dfScanEx.foldl scanStep ⟨[], false, ⟨0, 1, 1⟩, 0⟩).in_position = true := by
    rw [scanEx_eval]
  exact ⟨hmem, (C7_open_position_discarded dfScanEx scanEx_sorted hopen).1
    ⟨⟨2020, 1, 2⟩, 90, ⟨2020, 1, 3⟩, 99, 0, 1⟩ hmem⟩

/-- C10.  On a strictly date-sorted series each emitted trade buys strictly
after the previous trade sold: the entry branch is never evaluated on the
bar on which an exit occurs, so same-day re-entry within one instrument is
impossible. -/
theorem C10_no_same_day_reentry (df : List Row)
    (hsort : df.Pairwise (fun a b => a.date.toDay < b.date.toDay)) :
    List.Chain' (fun t u => t.sell_date.toDay < u.buy_date.toDay) (find_signals df) :=
  (scan_closed_master df ⟨[], false, ⟨0, 1, 1⟩, 0⟩ hsort
    (by simp) (by simp) (by simp) (by simp)).2

/-- Witness for C10 on the concrete series: its two emitted trades are
separated, the second buying strictly after the first sold. -/
theorem C10_witness :
    List.Chain' (fun t u => t.sell_date.toDay < u.buy_date.toDay)
      (find_signals dfScanEx) ∧
    find_signals dfScanEx =
      [⟨⟨2020, 1, 2⟩, 90, ⟨2020, 1, 3⟩, 99, 0, 1⟩,
       ⟨⟨2020, 1, 6⟩, 80, ⟨2020, 1, 7⟩, 99, 0, 1⟩] :=
  ⟨C10_no_same_day_reentry dfScanEx scanEx_sorted, find_signals_scanEx⟩

/-- The scan only ever appends to the `trades` accumulator. -/
lemma scan_trades_accum :
    ∀ (df : List Row) (ts : List Trade) (b : Bool) (d : Date) (p : ℚ),
      (df.foldl scanStep ⟨ts, b, d, p⟩).trades =
        ts ++ (df.foldl scanStep ⟨[], b, d, p⟩).trades := by
  intro df
  induction df with
  | nil => intro ts b d p; simp
  | cons r rest ih =>
    intro ts b d p
    rw [List.foldl_cons, List.foldl_cons]
    cases b with
    | false =>
      by_cases htrig :
          r.close < r.lower ∧ deviation_threshold < r.below ∧ min_volume < r.volume
      · have h1 : scanStep ⟨ts, false, d, p⟩ r = ⟨ts, true, r.date, r.close⟩ := by
          simp [scanStep, htrig]
        have h2 : scanStep ⟨[], false, d, p⟩ r = ⟨[], true, r.date, r.close⟩ := by
          simp [scanStep, htrig]
        rw [h1, h2, ih]
      · have h1 : scanStep ⟨ts, false, d, p⟩ r = ⟨ts, false, d, p⟩ := by
          simp [scanStep, htrig]
        have h2 : scanStep ⟨[], false, d, p⟩ r = ⟨[], false, d, p⟩ := by
          simp [scanStep, htrig]
        rw [h1, h2, ih]
    | true =>
      by_cases hexit : r.sma < r.close ∨ max_hold_days ≤ r.date.toDay - d.toDay
      · have h1 : scanStep ⟨ts, true, d, p⟩ r =
            ⟨ts ++ [⟨d, p, r.date, r.close, r.below, r.date.toDay - d.toDay⟩],
              false, d, p⟩ := by
          simp [scanStep, hexit]
        have h2 : scanStep ⟨[], true, d, p⟩ r =
            ⟨[⟨d, p, r.date, r.close, r.below, r.date.toDay - d.toDay⟩],
              false, d, p⟩ := by
          simp [scanStep, hexit]
        rw [h1, h2, ih, ih ([⟨d, p, r.date, r.close, r.below, r.date.toDay - d.toDay⟩])]
        simp
      · have h1 : scanStep ⟨ts, true, d, p⟩ r = ⟨ts, true, d, p⟩ := by
          simp [scanStep, hexit]
        have h2 : scanStep ⟨[], true, d, p⟩ r = ⟨[], true, d, p⟩ := by
          simp [scanStep, hexit]
        rw [h1, h2, ih]

/-- Counterexample to C3 as stated.  On the two-bar series below a position
is opened on 2020-01-02 (close 90 is below the lower band 100 by more than
the deviation threshold, with sufficient volume); the only later bar is
2020-02-11, forty days later, and does not cross the SMA (close 50 ≤ SMA
60), yet the emitted trade closes on 2020-02-11 — forty days after entry,
not `max_hold_days = 30` days — so with calendar gaps the position closes
strictly later than day `d + maxHoldDays`. -/
theorem C3_counterexample :
    find_signals
        [⟨⟨2020, 1, 2⟩, 90, 200000, 95, 100, 1/9⟩,
         ⟨⟨2020, 2, 11⟩, 50, 0, 60, 0, 0⟩] =
      [⟨⟨2020, 1, 2⟩, 90, ⟨2020, 2, 11⟩, 50, 0, 40⟩] ∧
    ¬((⟨⟨2020, 2, 11⟩, 50, 0, 60, 0, 0⟩ : Row).sma <
        (⟨⟨2020, 2, 11⟩, 50, 0, 60, 0, 0⟩ : Row).close) ∧
    (⟨2020, 2, 11⟩ : Date).toDay - (⟨2020, 1, 2⟩ : Date).toDay = 40 ∧
    max_hold_days < 40 := by
  refine ⟨?_, by norm_num, by decide, by decide⟩
  norm_num [find_signals, scanStep, Date.toDay, deviation_threshold, min_volume,
    max_hold_days]

/-- C3 (amended).  If a position is open with entry date `d` and none of the
remaining bars strictly before day `d + maxHoldDays` crosses the SMA, the
position closes on the FIRST remaining bar whose date is at least
`d + maxHoldDays` (when one exists) — exactly day `d + maxHoldDays` whenever
the series has a bar on that day, but later if calendar gaps skip it. -/
theorem C3_max_hold_first_bar (rs : List Row) (d : Date) (p : ℚ) (acc : List Trade)
    (rX : Row)
    (hNoCross : ∀ r ∈ rs, r.date.toDay < d.toDay + max_hold_days → ¬(r.sma < r.close))
    (hFirst : rs.find? (fun r => decide (d.toDay + max_hold_days ≤ r.date.toDay)) = some rX) :
    ∃ rest, (rs.foldl scanStep ⟨acc, true, d, p⟩).trades =
      acc ++ ⟨d, p, rX.date, rX.close, rX.below, rX.date.toDay - d.toDay⟩ :: rest := by
  induction rs with
  | nil => simp at hFirst
  | cons r rs' ih =>
    by_cases hpred : d.toDay + max_hold_days ≤ r.date.toDay
    · have hX : r = rX := by
        rw [List.find?_cons_of_pos _ (by simpa using hpred)] at hFirst
        exact Option.some.inj hFirst
      subst hX
      have hexit : r.sma < r.close ∨ max_hold_days ≤ r.date.toDay - d.toDay :=
        Or.inr (by omega)
      have hstep : scanStep ⟨acc, true, d, p⟩ r =
          ⟨acc ++ [⟨d, p, r.date, r.close, r.below, r.date.toDay - d.toDay⟩],
            false, d, p⟩ := by
        simp [scanStep, hexit]
      refine ⟨(rs'.foldl scanStep ⟨[], false, d, p⟩).trades, ?_⟩
      rw [List.foldl_cons, hstep, scan_trades_accum]
      simp
    · have hFirst' :
          rs'.find? (fun r => decide (d.toDay + max_hold_days ≤ r.date.toDay)) = some rX := by
        rw [List.find?_cons_of_neg _ (by simpa using hpred)] at hFirst
        exact hFirst
      have hNoCross' : ∀ r' ∈ rs',
          r'.date.toDay < d.toDay + max_hold_days → ¬(r'.sma < r'.close) :=
        fun r' hr' => hNoCross r' (List.mem_cons_of_mem r hr')
      have hnc : ¬(r.sma < r.close) :=
        hNoCross r (List.mem_cons_self r rs') (by omega)
      have hexit : ¬(r.sma < r.close ∨ max_hold_days ≤ r.date.toDay - d.toDay) := by
        push_neg
        exact ⟨le_of_not_lt hnc, by omega⟩
      have hstep : scanStep ⟨acc, true, d, p⟩ r = ⟨acc, true, d, p⟩ := by
        simp only [scanStep]
        rw [if_neg (by simp), if_neg hexit]
      rw [List.foldl_cons, hstep]
      exact ih hNoCross' hFirst'

/-- Witness for C3 (amended): a position opened 2021-01-01 scans a bar on
2021-01-05 (no SMA cross, before the hold limit) and a bar on 2021-02-05
(35 days after entry); it closes on the latter, the first bar at or past
day 30. -/
theorem C3_max_hold_witness :
    (([⟨⟨2021, 1, 5⟩, 50, 0, 60, 0, 0⟩, ⟨⟨2021, 2, 5⟩, 55, 0, 70, 0, 0⟩] :
        List Row).foldl scanStep ⟨[], true, ⟨2021, 1, 1⟩, 100⟩).trades.head? =
      some ⟨⟨2021, 1, 1⟩, 100, ⟨2021, 2, 5⟩, 55, 0, 35⟩ := by
  obtain ⟨rest, h⟩ := C3_max_hold_first_bar
    [⟨⟨2021, 1, 5⟩, 50, 0, 60, 0, 0⟩, ⟨⟨2021, 2, 5⟩, 55, 0, 70, 0, 0⟩]
    ⟨2021, 1, 1⟩ 100 [] ⟨⟨2021, 2, 5⟩, 55, 0, 70, 0, 0⟩
    (by
      intro r hr
      simp only [List.mem_cons, List.not_mem_nil, or_false] at hr
      rcases hr with rfl | rfl
      · intro _
        norm_num
      · intro hlt
        exfalso
        revert hlt
        simp [Date.toDay, max_hold_days])
    (by
      rw [List.find?_cons_of_neg _ (by simp [Date.toDay, max_hold_days]),
        List.find?_cons_of_pos _ (by simp [Date.toDay, max_hold_days])])
  rw [h]
  simp [Date.toDay, max_hold_days]

/-! ### Band-calculation lemmas -/

/-- Counting the kept elements of a `filterMap` over `List.range` whose
function is defined exactly from index `k` on. -/
lemma length_filterMap_range {β : Type} (h : ℕ → Option β) (k : ℕ)
    (hsome : ∀ i, (h i).isSome ↔ k ≤ i) :
    ∀ n, ((List.range n).filterMap h).length = n - k := by
  intro n
  induction n with
  | zero => simp
  | succ n ihn =>
    rw [List.range_succ, List.filterMap_append, List.length_append, ihn]
    by_cases hk : k ≤ n
    · have : (h n).isSome := (hsome n).mpr hk
      rcases Option.isSome_iff_exists.mp this with ⟨b, hb⟩
      simp only [List.filterMap_cons, List.filterMap_nil, hb]
      simp only [List.length_cons, List.length_nil]
      omega
    · have : h n = none := by
        rcases hn : h n with _ | b
        · rfl
        · exact absurd ((hsome n).mp (by simp [hn])) hk
      simp only [List.filterMap_cons, List.filterMap_nil, this, List.length_nil]
      omega

/-- Rows before the window is complete have an undefined SMA. -/
lemma bandRowOf_sma_none (sqrtQ : ℚ → ℚ) (df : List PricePoint) (i : ℕ)
    (h : i < period - 1) : (bandRowOf sqrtQ df i).sma = none := by
  simp [bandRowOf, Nat.not_le.mpr h]

/-- A band row survives the `dropna` exactly when its window was complete. -/
lemma dropnaRow_bandRowOf (sqrtQ : ℚ → ℚ) (df : List PricePoint) (i : ℕ) :
    (dropnaRow (bandRowOf sqrtQ df i)).isSome ↔ period - 1 ≤ i := by
  by_cases hi : period - 1 ≤ i
  · simp [bandRowOf, dropnaRow, hi]
  · simp [bandRowOf, dropnaRow, hi]

/-- C9.  The band calculator never emits a defined band point for an index
below `period - 1` (those rows carry `NaN`, i.e. `none`), and after the
`dropna` the working series of an input of length at least `period` has
exactly `length - (period - 1)` points, all of them fully defined. -/
theorem C9_window_gating (sqrtQ : ℚ → ℚ) (df : List PricePoint) :
    (∀ b ∈ (calculate_bands sqrtQ df).take (period - 1), b.sma = none) ∧
    (period ≤ df.length →
      (dropnaBands (calculate_bands sqrtQ df)).length = df.length - (period - 1)) := by
  constructor
  · intro b hb
    rw [calculate_bands, ← List.map_take, List.take_range] at hb
    rcases List.mem_map.mp hb with ⟨i, hi, rfl⟩
    have hilt : i < period - 1 := by
      have := List.mem_range.mp hi
      omega
    exact bandRowOf_sma_none sqrtQ df i hilt
  · intro hlen
    rw [dropnaBands, calculate_bands, List.filterMap_map,
      length_filterMap_range (dropnaRow ∘ bandRowOf sqrtQ df) (period - 1)
        (fun i => by simpa [Function.comp] using dropnaRow_bandRowOf sqrtQ df i)
        df.length]

/-- A concrete 21-point constant-price series inside 2020. -/
def df21ex : List PricePoint :=
  (List.range 21).map fun k => ⟨⟨2020, 1, (k : Int) + 1⟩, 1, 1000⟩

/-- Witness for C9 on the concrete 21-point series: its first band row is
undefined, and the working series after `dropna` has `21 - (period - 1) = 2`
points. -/
theorem C9_witness :
    ((⟨⟨2020, 1, 1⟩, 1, 1000, none, none, none, none, none⟩ : BandRow) ∈
      (calculate_bands (fun _ => 0) df21ex).take (period - 1) ∧
      (⟨⟨2020, 1, 1⟩, 1, 1000, none, none, none, none, none⟩ : BandRow).sma = none) ∧
    (dropnaBands (calculate_bands (fun _ => 0) df21ex)).length = 21 - (period - 1) := by
  have hmem : (⟨⟨2020, 1, 1⟩, 1, 1000, none, none, none, none, none⟩ : BandRow) ∈
      (calculate_bands (fun _ => 0) df21ex).take (period - 1) := by
    apply List.mem_of_mem_head?
    rw [show ((calculate_bands (fun _ => 0) df21ex).take (period - 1)).head? =
      some ⟨⟨2020, 1, 1⟩, 1, 1000, none, none, none, none, none⟩ from rfl]
    rfl
  have hlen : df21ex.length = 21 := by rfl
  refine ⟨⟨hmem, (C9_window_gating (fun _ => 0) df21ex).1 _ hmem⟩, ?_⟩
  rw [← hlen]
  exact (C9_window_gating (fun _ => 0) df21ex).2 (by rw [hlen]; norm_num [period])

/-! ### Per-year orchestration and cross-year compounding -/

/-- C8.  An instrument whose year-filtered series has fewer than `period`
points contributes zero candidates (the instrument is skipped, not an
error), and a year with zero candidates across all instruments returns a
0% compound return with an empty executed sequence. -/
theorem C8_insufficient_history_and_empty_set :
    (∀ (sqrtQ : ℚ → ℚ) (year : Int) (ticker : String) (series : List PricePoint),
      (series.filter (fun p => p.date.y = year)).length < period →
      candidatesFor sqrtQ year ticker series = []) ∧
    (∀ (sqrtQ : ℚ → ℚ) (year : Int) (data : List (String × List PricePoint)),
      allSignalsFor sqrtQ year data = [] →
      backtest_year sqrtQ year data =
        { executed := [], finalCapital := initial_capital, compoundReturn := 0 }) := by
  constructor
  · intro sqrtQ year ticker series h
    rw [candidatesFor]
    simp only [h, if_true]
  · intro sqrtQ year data h
    rw [backtest_year]
    simp only [h, List.isEmpty_nil, if_true]

/-- A concrete 5-point series inside 2020 (too short for the 20-day
window). -/
def df5ex : List PricePoint :=
  [⟨⟨2020, 1, 2⟩, 1, 1000⟩, ⟨⟨2020, 1, 3⟩, 1, 1000⟩, ⟨⟨2020, 1, 6⟩, 1, 1000⟩,
   ⟨⟨2020, 1, 7⟩, 1, 1000⟩, ⟨⟨2020, 1, 8⟩, 1, 1000⟩]

/-- Witness for C8: a universe holding one 5-point instrument yields no
candidates and a 0% year with nothing executed. -/
theorem C8_witness :
    candidatesFor (fun _ => 0) 2020 ("A") df5ex = [] ∧
    backtest_year (fun _ => 0) 2020 [("A", df5ex)] =
      { executed := [], finalCapital := initial_capital, compoundReturn := 0 } := by
  have h1 : candidatesFor (fun _ => 0) 2020 ("A") df5ex = [] :=
    (C8_insufficient_history_and_empty_set).1 (fun _ => 0) 2020 "A" df5ex
      (by norm_num [df5ex, period, List.filter])
  refine ⟨h1, (C8_insufficient_history_and_empty_set).2 (fun _ => 0) 2020 _ ?_⟩
  simp [allSignalsFor, h1]

/-- The compounding accumulator multiplies out to the product of the
per-year growth multipliers. -/
lemma compoundFactor_eq_prod (l : List ℚ) :
    compoundFactor l = (l.map (fun g => 1 + g / 100)).prod := by
  rw [compoundFactor, List.prod_eq_foldl, List.foldl_map]

/-- C4.  The overall growth factor starts at 1 and equals the product over
the years of `1 + compoundReturn / 100`; the product is invariant under any
permutation of the per-year gains (so the reverse-order iteration of the
source changes nothing), and for gains of +10% and −10% it is 0.99. -/
theorem C4_growth_factor_product :
    (∀ (sqrtQ : ℚ → ℚ) (data : List (String × List PricePoint)),
      multiYearGrowth sqrtQ data =
        (years_to_test.map
          (fun y => 1 + (backtest_year sqrtQ y data).compoundReturn / 100)).prod) ∧
    (∀ l1 l2 : List ℚ, l1.Perm l2 → compoundFactor l1 = compoundFactor l2) ∧
    compoundFactor [10, -10] = 99 / 100 := by
  refine ⟨?_, ?_, ?_⟩
  · intro sqrtQ data
    rw [multiYearGrowth, compoundFactor_eq_prod, List.map_map, List.map_reverse,
      List.prod_reverse]
    rfl
  · intro l1 l2 hperm
    rw [compoundFactor_eq_prod, compoundFactor_eq_prod]
    exact List.Perm.prod_eq (hperm.map _)
  · norm_num [compoundFactor]

/-- Witness for C4: on an empty universe every year returns 0% and the
12-year growth factor is exactly 1, and the ±10% example is order
independent. -/
theorem C4_witness :
    multiYearGrowth (fun _ => 0) [] = 1 ∧
    compoundFactor [10, -10] = compoundFactor [-10, 10] := by
  constructor
  · rw [(C4_growth_factor_product).1 (fun _ => 0) []]
    norm_num [years_to_test, backtest_year, allSignalsFor, List.range_succ]
  · exact (C4_growth_factor_product).2.1 [10, -10] [-10, 10]
      (List.Perm.swap (-10 : ℚ) 10 [])

end Playground
